import Mathlib

/-!
Shallow embedding of `bloom.cpp` (bloomz.cpp): checkpoint loader,
forward-pass cache semantics, sampler, one-shot generation loop
(`inference`) and multi-turn chat loop (`chat`), together with the
C-API wrappers `bloom_load`, `bloom_run` seed resolution and
`bloom_chat`.

Token ids (`gpt_vocab::id`, an `int` in the source) are modelled as
`Nat`: every id produced by the tokenizer or the sampler is a
non-negative vocabulary index.  Logits (`float` in the source) are
modelled as rationals `ℚ`; the claims under study depend only on order
and equality of logits, not on rounding.  The ggml tensor kernels
(matrix products, norms, softmax, graph execution) are external
collaborators per the specification's scope; their per-call numeric
outputs enter the embedding as function parameters, while everything
the core itself computes (offsets, slices, control flow, return codes)
is translated from the source.
-/

namespace Bloom

/-- Feed-forward inner width, from `bloom_model_load`:
`n_ff = ((4*n_embd + n_mult - 1)/n_mult)*n_mult` (integer division). -/
def n_ff (n_embd n_mult : Nat) : Nat :=
  ((4 * n_embd + n_mult - 1) / n_mult) * n_mult

/-- Little-endian unsigned 32-bit decode of 4 bytes of the model file,
as done by `fin.read((char*)&magic, sizeof(magic))`.  Bytes past the
end of the file read as 0 (no claim depends on truncated files). -/
def readU32 (file : List Nat) (off : Nat) : Nat :=
  file.getD off 0 + 256 * file.getD (off + 1) 0 +
    65536 * file.getD (off + 2) 0 + 16777216 * file.getD (off + 3) 0

/-- The magic constant `0x67676d6c` checked at the top of
`bloom_model_load`. -/
def ggmlMagic : Nat := 0x67676d6c

/-- Hyperparameters read by `bloom_model_load` (struct `bloom_hparams`).
`n_ctx` is not read from the file: it is overridden by the caller. -/
structure BloomHParams where
  n_vocab : Nat
  n_ctx : Nat
  n_embd : Nat
  n_mult : Nat
  n_head : Nat
  n_layer : Nat
  f16 : Nat
  deriving DecidableEq, Repr

/-- Which load phases executed, recorded in source order:
hyperparameter read (lines 109-135), vocabulary build (137-175),
arena creation by `ggml_init` (241-253). -/
structure LoadTrace where
  hparamsRead : Bool
  vocabRead : Bool
  arenaCreated : Bool
  deriving DecidableEq, Repr

/-- Vocabulary entries: `n` length-prefixed byte strings starting at
byte offset `off`, ids assigned in file order.  Returns the words and
the offset past the vocabulary. -/
def readVocab (file : List Nat) : Nat → Nat → List (List Nat) × Nat
  | off, 0 => ([], off)
  | off, n + 1 =>
    let len := readU32 file off
    let w := (file.drop (off + 4)).take len
    let rest := readVocab file (off + 4 + len) n
    (w :: rest.1, rest.2)

/-- Result of a successful `bloom_model_load` up to arena creation:
hyperparameters (with the caller-supplied `n_ctx`), derived
feed-forward width, and the vocabulary words in id order.  The
subsequent per-tensor weight streaming (lines 346-544) is not needed
by any claim in scope and is not modelled. -/
structure LoadedModel where
  hparams : BloomHParams
  nff : Nat
  vocab : List (List Nat)
  deriving DecidableEq, Repr

/-- `bloom_model_load`, phases in source order: magic check (lines
96-103); hyperparameter read at byte offsets 4..27 (`n_vocab, n_embd,
n_mult, n_head, n_layer, f16`, with `n_ctx` taken from the argument);
vocabulary read; `f16` switch (lines 180-191, values 0-3 accepted);
arena creation (`ggml_init`, success given by `arenaOk`).  Returns the
loaded model (or `none` on failure) and the phase trace. -/
def bloom_model_load (file : List Nat) (n_ctx : Nat) (arenaOk : Bool) :
    Option LoadedModel × LoadTrace :=
  if readU32 file 0 ≠ ggmlMagic then
    (none, ⟨false, false, false⟩)
  else
    let hp : BloomHParams :=
      ⟨readU32 file 4, n_ctx, readU32 file 8, readU32 file 12,
        readU32 file 16, readU32 file 20, readU32 file 24⟩
    let voc := (readVocab file 28 hp.n_vocab).1
    if hp.f16 > 3 then
      (none, ⟨true, true, false⟩)
    else if arenaOk then
      (some ⟨hp, n_ff hp.n_embd hp.n_mult, voc⟩, ⟨true, true, true⟩)
    else
      (none, ⟨true, true, false⟩)

/-! ## KV cache semantics of `bloom_eval`

`memory_k` and `memory_v` are flat 1-D tensors of
`n_layer * n_ctx * n_embd` float elements.  For each layer `il`,
`bloom_eval` takes a 1-D view of `N*n_embd` elements at element offset
`n_embd*(il*n_ctx + n_past)` and copies this call's `Kcur`/`Vcur`
into it (lines 649-656), guarded by `N >= 1`.  The cache is modelled
as a total function from flat element index to value. -/

/-- Flat element index of coordinate `r` of cache position `q` of
layer `il` (element units, `n_embd` floats per position). -/
def cacheIdx (n_embd n_ctx il q r : Nat) : Nat :=
  il * (n_ctx * n_embd) + q * n_embd + r

/-- The single-layer cache write of lines 649-656: element indices
`[n_embd*(il*n_ctx + n_past), n_embd*(il*n_ctx + n_past) + N*n_embd)`
receive this call's projected values `cur`, everything else is kept;
skipped when `N = 0` (the `N >= 1` guard). -/
def cacheWriteLayer (n_embd n_ctx il n_past N : Nat) (cur : Nat → ℚ)
    (mem : Nat → ℚ) : Nat → ℚ :=
  if 1 ≤ N then
    fun idx =>
      if n_embd * (il * n_ctx + n_past) ≤ idx ∧
          idx < n_embd * (il * n_ctx + n_past) + N * n_embd then
        cur (idx - n_embd * (il * n_ctx + n_past))
      else mem idx
  else mem

/-- Index range hit by layer `il`'s cache write. -/
def inWriteRange (n_embd n_ctx il n_past N idx : Nat) : Prop :=
  1 ≤ N ∧ n_embd * (il * n_ctx + n_past) ≤ idx ∧
    idx < n_embd * (il * n_ctx + n_past) + N * n_embd

instance (n_embd n_ctx il n_past N idx : Nat) :
    Decidable (inWriteRange n_embd n_ctx il n_past N idx) := by
  unfold inWriteRange; infer_instance

/-- The full cache effect of one `bloom_eval` call: the per-layer
writes of the loop `for il in 0..n_layer`, folded in order.
`cur il` gives the `Kcur` (resp. `Vcur`) element stream of layer
`il` for this call. -/
def kvCacheWrite (n_embd n_ctx n_layer n_past : Nat)
    (cur : Nat → Nat → ℚ) (mem : Nat → ℚ) (N : Nat) : Nat → ℚ :=
  (List.range n_layer).foldl
    (fun m il => cacheWriteLayer n_embd n_ctx il n_past N (cur il) m) mem

/-- Output of one `bloom_eval` call: the returned logits and the two
updated caches. -/
structure EvalOut where
  logits : List ℚ
  memK : Nat → ℚ
  memV : Nat → ℚ

/-- `bloom_eval` (lines 559-799), at the granularity the claims need.
The transformer graph itself is executed by the external ggml backend;
its final tensor (`inpL` after the lm head, `n_vocab × N` values in
row-major position order) enters as `graphOut`, and the per-layer
`Kcur`/`Vcur` projection streams as `kcur`/`vcur`.  The core's own
work is modelled exactly: the cache writes at element offset
`n_embd*(il*n_ctx + n_past)` spanning `N*n_embd` elements per layer,
and the final `memcpy` of `n_vocab` floats starting at element
`n_vocab*(N-1)` into the resized `embd_w` (lines 788-789). -/
def bloom_eval (n_embd n_ctx n_layer n_vocab : Nat) (graphOut : Nat → ℚ)
    (kcur vcur : Nat → Nat → ℚ) (n_past : Nat) (embd_inp : List Nat)
    (memK memV : Nat → ℚ) : EvalOut :=
  { logits := (List.range n_vocab).map
      (fun j => graphOut (n_vocab * (embd_inp.length - 1) + j))
    memK := kvCacheWrite n_embd n_ctx n_layer n_past kcur memK embd_inp.length
    memV := kvCacheWrite n_embd n_ctx n_layer n_past vcur memV embd_inp.length }

/-- Row `pos` of an `n_vocab`-wide row-major matrix of logits: the
distribution computed for input position `pos`. -/
def logitsRow (n_vocab : Nat) (data : Nat → ℚ) (pos : Nat) : List ℚ :=
  (List.range n_vocab).map (fun j => data (n_vocab * pos + j))

/-! ## Sampler -/

/-- Modelled from the spec: the repetition-penalty pass of
`bloom_sample_top_p` (section 4.3 step 1), whose body lives in
`utils.cpp`, a repository file not present under `src/`.  For every id
in the recent-token window, a positive logit is divided by the penalty
and a non-positive one multiplied by it. -/
def applyRepeatPenaltyGo (recent : List Nat) (rp : ℚ) :
    Nat → List ℚ → List ℚ
  | _, [] => []
  | i, x :: xs =>
    (if i ∈ recent then (if 0 < x then x / rp else x * rp) else x) ::
      applyRepeatPenaltyGo recent rp (i + 1) xs

/-- The penalty pass over the whole logits vector, indices from 0. -/
def applyRepeatPenalty (logits : List ℚ) (recent : List Nat) (rp : ℚ) :
    List ℚ :=
  applyRepeatPenaltyGo recent rp 0 logits

/-- Arg-max over the first `n` entries of a logits list, first maximal
index kept. -/
def argmaxUpTo (l : List ℚ) : Nat → Nat
  | 0 => 0
  | n + 1 =>
    let b := argmaxUpTo l n
    if l.getD b 0 < l.getD n 0 then n else b

/-- Index of the (first) maximal logit. -/
def argmaxIdx (l : List ℚ) : Nat := argmaxUpTo l l.length

/-- Modelled from the spec: `bloom_sample_top_p` (section 4.3), whose
body lives in `utils.cpp`, absent from `src/`.  Repetition penalty is
applied first; at `temp = 0` the arg-max id is returned directly,
bypassing stochastic sampling and leaving the generator untouched.
The stochastic branch (temperature scaling, top-k, softmax, nucleus
truncation, threshold draw — spec steps 2-6 for `temp ≠ 0`) consumes
the generator and is abstracted as the parameter `stoch`, since no
claim in scope constrains its internals. -/
def bloom_sample_top_p {R : Type}
    (stoch : ℚ → Nat → List ℚ → List Nat → R → Nat × R)
    (top_p : ℚ) (top_k : Nat) (logits : List ℚ) (recent : List Nat)
    (rp : ℚ) (temp : ℚ) (rng : R) : Nat × R :=
  let plogits := applyRepeatPenalty logits recent rp
  if temp = 0 then (argmaxIdx plogits, rng)
  else stoch top_p top_k plogits recent rng

/-! ## One-shot generation loop (`inference`, lines 829-955) -/

/-- `last_n_tokens.erase(begin); last_n_tokens.push_back(t)`. -/
def rotatePush (l : List Nat) (t : Nat) : List Nat := l.tail ++ [t]

/-- The inner prompt-batch builder of `inference` (lines 915-922),
iterating the remaining tokens in index order: push tokens while
`k < embd_inp.size()`, and break only after a push makes
`embd.size() > n_batch`. -/
def buildBatchGo (n_batch : Nat) : List Nat → List Nat → List Nat
  | [], acc => acc
  | t :: rest, acc =>
    let acc2 := acc ++ [t]
    if acc2.length > n_batch then acc2
    else buildBatchGo n_batch rest acc2

/-- The batch built by the loop `for (k = i; k < embd_inp.size(); k++)`
starting from prompt index `k`. -/
def buildBatch (embd_inp : List Nat) (n_batch k : Nat) : List Nat :=
  buildBatchGo n_batch (embd_inp.drop k) []

/-- Loop state of `inference`: loop counter `i`, cache position
`n_past`, the pending batch `embd`, the recent-token window, current
logits, the pseudo-random generator, the emitted token ids (`out`, the
tokens written to `dst`), the trace of `bloom_eval` calls
(`(n_past, batch)` pairs, in order), and whether the end-of-text break
has fired. -/
structure InfState (R : Type) where
  i : Nat
  npast : Nat
  embd : List Nat
  lastN : List Nat
  logits : List ℚ
  rng : R
  out : List Nat
  evals : List (Nat × List Nat)
  stopped : Bool

/-- One-shot generation loop body (lines 871-940), fuel-recursive.
Each iteration: evaluate the pending batch if non-empty (recording the
call), advance `n_past`, then either sample one token (when
`i ≥ embd_inp.size()`) or build the next prompt batch and advance `i`
by its size; append the batch to the output and stop on the
end-of-text id 2.  `evalFn` is the logits result of `bloom_eval`
(deterministic in `(n_past, batch)` for a fixed session), `samp` the
sampler.  The loop guard `i < embd_inp.size() + n_predict` is tested
each round; the fuel passed by `inference` bounds the trip count. -/
def infLoop {R : Type} (evalFn : Nat → List Nat → List ℚ)
    (embd_inp : List Nat) (n_predict n_batch : Nat)
    (samp : List ℚ → List Nat → R → Nat × R) :
    Nat → InfState R → InfState R
  | 0, s => s
  | fuel + 1, s =>
    if s.stopped then s
    else if s.i < embd_inp.length + n_predict then
      let logits2 := if s.embd.length > 0 then evalFn s.npast s.embd else s.logits
      let evals2 := if s.embd.length > 0 then s.evals ++ [(s.npast, s.embd)] else s.evals
      let npast2 := s.npast + s.embd.length
      if embd_inp.length ≤ s.i then
        let sr := samp logits2 s.lastN s.rng
        let embd2 := [sr.1]
        infLoop evalFn embd_inp n_predict n_batch samp fuel
          { i := s.i + 1, npast := npast2, embd := embd2,
            lastN := rotatePush s.lastN sr.1, logits := logits2,
            rng := sr.2, out := s.out ++ embd2, evals := evals2,
            stopped := embd2.getLastD 0 == 2 }
      else
        let embd2 := buildBatch embd_inp n_batch s.i
        infLoop evalFn embd_inp n_predict n_batch samp fuel
          { i := s.i + embd2.length, npast := npast2, embd := embd2,
            lastN := embd2.foldl rotatePush s.lastN, logits := logits2,
            rng := s.rng, out := s.out ++ embd2, evals := evals2,
            stopped := embd2.getLastD 0 == 2 }
    else s

/-- `inference` (lines 829-955): tokenized prompt `embd_inp`, clamped
prediction budget `n_predict`, batch size `n_batch`; `last_n_tokens`
starts as `repeat_last_n` zeros, `embd` empty, `i = 0`, `n_past = 0`.
The sampler is `bloom_sample_top_p` seeded with the run's generator
state `rng0`. -/
def inference {R : Type} (evalFn : Nat → List Nat → List ℚ)
    (stoch : ℚ → Nat → List ℚ → List Nat → R → Nat × R)
    (embd_inp : List Nat) (n_predict n_batch repeat_last_n : Nat)
    (rp top_p : ℚ) (top_k : Nat) (temp : ℚ) (rng0 : R) : InfState R :=
  infLoop evalFn embd_inp n_predict n_batch
    (fun lg ln g => bloom_sample_top_p stoch top_p top_k lg ln rp temp g)
    (embd_inp.length + n_predict)
    { i := 0, npast := 0, embd := [], lastN := List.replicate repeat_last_n 0,
      logits := [], rng := rng0, out := [], evals := [], stopped := false }

/-- Forget the generator component of an `InfState`. -/
def stripRng {R : Type} (s : InfState R) : InfState Unit :=
  ⟨s.i, s.npast, s.embd, s.lastN, s.logits, (), s.out, s.evals, s.stopped⟩

/-- Seed resolution of `bloom_run` (line 1091):
`params.seed = params.seed < 0 ? time(NULL) : seed`.  The condition
reads `params.seed` — the freshly default-constructed field, whose
value `defaultSeed` comes from `gpt_params` in `utils.h` (not under
`src/`) — not the `seed` argument; a negative default therefore routes
every call to `time(NULL)` (`timeNow`). -/
def resolveSeed (defaultSeed seedArg timeNow : Int) : Int :=
  if defaultSeed < 0 then timeNow else seedArg

/-! ## Multi-turn chat (`chat`, lines 957-1080, and `bloom_chat`,
lines 1100-1132) -/

/-- Construction of `embd_inp` in `chat` (lines 978-989): tokenize the
prompt when non-empty, then prepend `last_n_tokens.back()` when it is
positive.  The tokenizer (`bloom_tokenize`, in `utils.cpp`, absent
from `src/`) is an abstract parameter. -/
def chat_embd_inp (tokenize : String → List Nat) (promptText : String)
    (lastBack : Nat) : List Nat :=
  let e := if promptText.length > 0 then tokenize promptText else []
  if lastBack > 0 then lastBack :: e else e

/-- The prompt suffix handed to `chat` by `bloom_chat` (line 1113):
`std::string(prompt + ctx->n_chars)`, i.e. the conversation text past
the accumulated character count. -/
def bloom_chat_prompt (conversation : String) (n_chars : Nat) : String :=
  conversation.drop n_chars

/-- The input `chat` evaluates for a `bloom_chat` call: only the
suffix of the conversation past `n_chars` is tokenized, with the
carried-over last token prepended when positive. -/
def bloom_chat_input (tokenize : String → List Nat) (conversation : String)
    (n_chars : Nat) (lastN : List Nat) : List Nat :=
  chat_embd_inp tokenize (bloom_chat_prompt conversation n_chars)
    (lastN.getLastD 0)

/-- State after `chat`'s prompt-ingestion loop: advanced `n_past`, the
recent-token window, current logits, and the trace of index values `j`
at which `embd_inp[j]` was read when refilling the window (the
expression `embd_inp[n_past + i]` of line 1010, evaluated after
`n_past += n`).  The C++ access is an unchecked `std::vector`
subscript; the model reads with default 0 and records the index. -/
structure ChatPromptState where
  npast : Nat
  lastN : List Nat
  logits : List ℚ
  idxs : List Nat
  deriving DecidableEq, Repr

/-- Prompt-ingestion loop of `chat` (lines 994-1014), fuel-recursive:
while `n_past < n_input`, evaluate the next `min(n_batch,
n_input - n_past)` tokens of `embd_inp` (sliced from local offset
`n_past - n_past_init`); on evaluation failure `chat` returns 1.
After the eval, `n_past += n` and the window is refilled from
`embd_inp[n_past + i]` for `i < n`.  The fuel passed by `chat` covers
the whole prompt whenever `n_batch ≥ 1`. -/
def chatPromptLoop (evalFn : Nat → List Nat → Option (List ℚ))
    (embd_inp : List Nat) (n_past_init n_batch n_input : Nat) :
    Nat → ChatPromptState → Except Unit ChatPromptState
  | 0, s => Except.ok s
  | fuel + 1, s =>
    if s.npast < n_input then
      let n := min n_batch (n_input - s.npast)
      let embd := ((embd_inp.drop (s.npast - n_past_init)).take n)
      match evalFn s.npast embd with
      | none => Except.error ()
      | some lg =>
        let npast2 := s.npast + n
        chatPromptLoop evalFn embd_inp n_past_init n_batch n_input fuel
          { npast := npast2,
            lastN := (List.range n).foldl
              (fun l i => rotatePush l (embd_inp.getD (npast2 + i) 0)) s.lastN,
            logits := lg,
            idxs := s.idxs ++ (List.range n).map (fun i => npast2 + i) }
    else Except.ok s

/-- State threaded through `chat`'s decode loop, plus result fields of
the whole call. -/
structure ChatDecodeState where
  npast : Nat
  lastN : List Nat
  logits : List ℚ
  n_chars : Nat
  out : List Nat
  deriving DecidableEq, Repr

/-- Decode loop of `chat` (lines 1018-1060), fuel-recursive: sample an
id, rotate it into the window, append its word length to `n_chars`;
break (success) when the id is the end-of-text id 2 or
`n_past ≥ n_input + n_predict - 1` (signed comparison: the clamped
budget can be negative); otherwise evaluate the single token — on
failure `chat` returns -1 — and advance `n_past`.  `wordLen id` is
`vocab.id_to_token.find(id)->second.size()`. -/
def chatDecodeLoop {R : Type} (evalFn : Nat → List Nat → Option (List ℚ))
    (samp : List ℚ → List Nat → R → Nat × R) (wordLen : Nat → Nat)
    (n_input : Nat) (n_predict : Int) :
    Nat → R → ChatDecodeState → Except Unit (ChatDecodeState × R)
  | fuel, rng, s =>
    let sr := samp s.logits s.lastN rng
    let lastN2 := rotatePush s.lastN sr.1
    let s2 : ChatDecodeState :=
      { s with
        lastN := lastN2
        n_chars := s.n_chars + wordLen sr.1
        out := s.out ++ [sr.1] }
    if sr.1 = 2 ∨ (s.npast : Int) ≥ (n_input : Int) + n_predict - 1 then
      Except.ok (s2, sr.2)
    else
      match fuel with
      | 0 => Except.ok (s2, sr.2)
      | fuel + 1 =>
        match evalFn s.npast [sr.1] with
        | none => Except.error ()
        | some lg =>
          chatDecodeLoop evalFn samp wordLen n_input n_predict fuel sr.2
            { s2 with npast := s.npast + 1, logits := lg }

/-- Result of one `chat` call: the `int` return value (1 when a
prompt-ingestion eval fails, -1 when a decode eval fails, the updated
`n_chars` on success), the session state it leaves behind, the
evaluated input `embd_inp`, and the refill index trace. -/
structure ChatRes where
  ret : Int
  npast : Nat
  n_chars : Nat
  lastN : List Nat
  out : List Nat
  embd_inp : List Nat
  idxs : List Nat

/-- `chat` (lines 957-1080): build `embd_inp` from the prompt suffix
and the carried-over token; set `n_input = n_past + embd_inp.size()`
and clamp the budget to `min(n_predict, n_ctx - n_input)`; run the
prompt-ingestion loop (failure → return 1); account the prompt's
characters into `n_chars`; run the decode loop (failure → return -1);
on success return the final `n_chars`. -/
def chat {R : Type} (evalFn : Nat → List Nat → Option (List ℚ))
    (tokenize : String → List Nat)
    (stoch : ℚ → Nat → List ℚ → List Nat → R → Nat × R)
    (wordLen : Nat → Nat) (promptText : String)
    (n_past0 n_chars0 : Nat) (lastN0 : List Nat)
    (n_predict n_batch n_ctx : Nat) (rp top_p : ℚ) (top_k : Nat)
    (temp : ℚ) (rng : R) : ChatRes :=
  let embd_inp := chat_embd_inp tokenize promptText (lastN0.getLastD 0)
  let n_input := n_past0 + embd_inp.length
  let npred : Int := min (n_predict : Int) ((n_ctx : Int) - (n_input : Int))
  match chatPromptLoop evalFn embd_inp n_past0 n_batch n_input
      embd_inp.length ⟨n_past0, lastN0, [], []⟩ with
  | Except.error _ =>
    { ret := 1, npast := n_past0, n_chars := n_chars0, lastN := lastN0,
      out := [], embd_inp := embd_inp, idxs := [] }
  | Except.ok ps =>
    let n_chars1 := n_chars0 + promptText.length
    match chatDecodeLoop evalFn
        (fun lg ln g => bloom_sample_top_p stoch top_p top_k lg ln rp temp g)
        wordLen n_input npred (n_predict + 1) rng
        ⟨ps.npast, ps.lastN, ps.logits, n_chars1, []⟩ with
    | Except.error _ =>
      { ret := -1, npast := ps.npast, n_chars := n_chars1, lastN := ps.lastN,
        out := [], embd_inp := embd_inp, idxs := ps.idxs }
    | Except.ok (ds, _) =>
      { ret := (ds.n_chars : Int), npast := ds.npast, n_chars := ds.n_chars,
        lastN := ds.lastN, out := ds.out, embd_inp := embd_inp,
        idxs := ps.idxs }

/-- `bloom_chat` (lines 1100-1132): slice the conversation past
`n_chars`, run `chat`, and map its return value to the API result:
`-1` only when `chat` returned a negative value, `0` otherwise. -/
def bloom_chat {R : Type} (evalFn : Nat → List Nat → Option (List ℚ))
    (tokenize : String → List Nat)
    (stoch : ℚ → Nat → List ℚ → List Nat → R → Nat × R)
    (wordLen : Nat → Nat) (conversation : String)
    (n_past0 n_chars0 : Nat) (lastN0 : List Nat)
    (n_predict n_batch n_ctx : Nat) (rp top_p : ℚ) (top_k : Nat)
    (temp : ℚ) (rng : R) : Int × ChatRes :=
  let r := chat evalFn tokenize stoch wordLen
    (bloom_chat_prompt conversation n_chars0) n_past0 n_chars0 lastN0
    n_predict n_batch n_ctx rp top_p top_k temp rng
  (if r.ret < 0 then -1 else 0, r)

/-! ## `bloom_load` (lines 801-823) -/

/-- The `ChatContext` a successful `bloom_load` returns. -/
structure ChatCtx where
  mem_per_token : Nat
  n_chars : Nat
  npast : Nat
  last_n_tokens : List Nat
  memK : Nat → ℚ
  memV : Nat → ℚ
  evalCalls : List (Nat × List Nat)

/-- `bloom_load`: construct a fresh `ChatContext` (all counters 0),
load the model (`loadOk`), run exactly one warm-up `bloom_eval` with
tokens `{0, 1, 2, 3}` at `n_past = 0` (`evalOk` its success; its cache
effect and per-token memory estimate `usedMem/4` recorded), then fill
`last_n_tokens` with `repeat_last_n` zeros.  Returns `none` when the
model load or the warm-up eval fails.  `repeat_last_n` is the
`gpt_params` default from `utils.h` (not under `src/`), kept as a
parameter. -/
def bloom_load (loadOk evalOk : Bool) (repeat_last_n : Nat)
    (n_embd n_ctx n_layer : Nat) (kcur vcur : Nat → Nat → ℚ)
    (memK0 memV0 : Nat → ℚ) (usedMem : Nat) : Option ChatCtx :=
  if ¬ loadOk then none
  else if ¬ evalOk then none
  else
    some
      { mem_per_token := usedMem / 4
        n_chars := 0
        npast := 0
        last_n_tokens := List.replicate repeat_last_n 0
        memK := kvCacheWrite n_embd n_ctx n_layer 0 kcur memK0 4
        memV := kvCacheWrite n_embd n_ctx n_layer 0 vcur memV0 4
        evalCalls := [(0, [0, 1, 2, 3])] }

/-! ## Helper lemmas -/

theorem applyRepeatPenaltyGo_one (recent : List Nat) (i : Nat) (l : List ℚ) :
    applyRepeatPenaltyGo recent 1 i l = l := by
  induction l generalizing i with
  | nil => rfl
  | cons x xs ih => simp [applyRepeatPenaltyGo, div_one, mul_one, ih]

theorem applyRepeatPenalty_one (l : List ℚ) (recent : List Nat) :
    applyRepeatPenalty l recent 1 = l :=
  applyRepeatPenaltyGo_one recent 0 l

theorem argmaxUpTo_lt (l : List ℚ) (n : Nat) (h : 0 < n) :
    argmaxUpTo l n < n := by
  induction n with
  | zero => omega
  | succ m ih =>
    simp only [argmaxUpTo]
    split
    · omega
    · rcases Nat.eq_zero_or_pos m with hm | hm
      · subst hm
        simp [argmaxUpTo]
      · exact Nat.lt_succ_of_lt (ih hm)

theorem argmaxUpTo_le (l : List ℚ) : ∀ (n j : Nat), j < n →
    l.getD j 0 ≤ l.getD (argmaxUpTo l n) 0 := by
  intro n
  induction n with
  | zero => omega
  | succ m ih =>
    intro j hj
    simp only [argmaxUpTo]
    split
    · rename_i hlt
      by_cases hjm : j < m
      · exact le_trans (ih j hjm) (le_of_lt hlt)
      · have hje : j = m := by omega
        subst hje
        exact le_refl _
    · rename_i hge
      by_cases hjm : j < m
      · exact ih j hjm
      · have hje : j = m := by omega
        subst hje
        exact le_of_not_lt hge

theorem argmaxUpTo_eq_of_strict (l : List ℚ) : ∀ (n i : Nat), i < n →
    (∀ j, j < n → j ≠ i → l.getD j 0 < l.getD i 0) →
    argmaxUpTo l n = i := by
  intro n
  induction n with
  | zero => omega
  | succ m ih =>
    intro i hi hs
    by_cases him : i < m
    · have hrec : argmaxUpTo l m = i :=
        ih i him (fun j hj hne => hs j (by omega) hne)
      simp only [argmaxUpTo, hrec]
      have hlt : l.getD m 0 < l.getD i 0 := hs m (by omega) (by omega)
      split
      · rename_i habs
        exact absurd habs (not_lt_of_ge (le_of_lt hlt))
      · rfl
    · have hie : i = m := by omega
      subst hie
      simp only [argmaxUpTo]
      rcases Nat.eq_zero_or_pos i with hm | hm
      · subst hm
        simp [argmaxUpTo]
      · have hb : argmaxUpTo l i < i := argmaxUpTo_lt l i hm
        have hlt : l.getD (argmaxUpTo l i) 0 < l.getD i 0 :=
          hs _ (by omega) (by omega)
        split
        · rfl
        · rename_i hge
          exact absurd hlt hge

theorem argmaxIdx_spec (l : List ℚ) (h : 0 < l.length) :
    argmaxIdx l < l.length ∧
      ∀ j, j < l.length → l.getD j 0 ≤ l.getD (argmaxIdx l) 0 :=
  ⟨argmaxUpTo_lt l l.length h, fun j hj => argmaxUpTo_le l l.length j hj⟩

theorem argmaxIdx_eq_of_strict (l : List ℚ) (i : Nat) (hi : i < l.length)
    (hs : ∀ j, j < l.length → j ≠ i → l.getD j 0 < l.getD i 0) :
    argmaxIdx l = i :=
  argmaxUpTo_eq_of_strict l l.length i hi hs

theorem nat_mul_add_lt {q m r E : Nat} (h1 : q < m) (h2 : r < E) :
    q * E + r < m * E := by
  calc q * E + r < q * E + E := by omega
    _ = (q + 1) * E := by rw [Nat.succ_mul]
    _ ≤ m * E := Nat.mul_le_mul_right E h1

theorem nat_mul_le_mul_add {p q r E : Nat} (h : p ≤ q) :
    p * E ≤ q * E + r :=
  le_trans (Nat.mul_le_mul_right E h) (Nat.le_add_right _ _)

theorem cacheWriteLayer_hit (E C il p N : Nat) (cur : Nat → ℚ)
    (mem : Nat → ℚ) (idx : Nat) (h : inWriteRange E C il p N idx) :
    cacheWriteLayer E C il p N cur mem idx =
      cur (idx - E * (il * C + p)) := by
  obtain ⟨hN, h1, h2⟩ := h
  unfold cacheWriteLayer
  rw [if_pos hN]
  exact if_pos ⟨h1, h2⟩

theorem cacheWriteLayer_miss (E C il p N : Nat) (cur : Nat → ℚ)
    (mem : Nat → ℚ) (idx : Nat) (h : ¬ inWriteRange E C il p N idx) :
    cacheWriteLayer E C il p N cur mem idx = mem idx := by
  unfold cacheWriteLayer
  by_cases hN : 1 ≤ N
  · rw [if_pos hN]
    refine if_neg ?_
    intro hc
    exact h ⟨hN, hc.1, hc.2⟩
  · rw [if_neg hN]

theorem foldl_cacheWrite_miss (E C p N : Nat) (cur : Nat → Nat → ℚ) :
    ∀ (ls : List Nat) (mem : Nat → ℚ) (idx : Nat),
    (∀ il ∈ ls, ¬ inWriteRange E C il p N idx) →
    (ls.foldl (fun m il => cacheWriteLayer E C il p N (cur il) m) mem) idx =
      mem idx := by
  intro ls
  induction ls with
  | nil => intro mem idx _; rfl
  | cons a tl ih =>
    intro mem idx h
    simp only [List.foldl_cons]
    rw [ih _ idx (fun il hil => h il (List.mem_cons_of_mem a hil))]
    exact cacheWriteLayer_miss E C a p N (cur a) mem idx
      (h a (List.mem_cons_self a tl))

theorem foldl_cacheWrite_hit (E C p N : Nat) (cur : Nat → Nat → ℚ) :
    ∀ (ls : List Nat) (mem : Nat → ℚ) (idx il : Nat), ls.Nodup →
    il ∈ ls → inWriteRange E C il p N idx →
    (∀ il2 ∈ ls, il2 ≠ il → ¬ inWriteRange E C il2 p N idx) →
    (ls.foldl (fun m il2 => cacheWriteLayer E C il2 p N (cur il2) m) mem)
      idx = cur il (idx - E * (il * C + p)) := by
  intro ls
  induction ls with
  | nil => intro mem idx il _ h; exact absurd h (List.not_mem_nil il)
  | cons a tl ih =>
    intro mem idx il hnd hmem hhit hmiss
    simp only [List.foldl_cons]
    rcases List.mem_cons.1 hmem with rfl | htl
    · have hnotin : il ∉ tl := (List.nodup_cons.1 hnd).1
      rw [foldl_cacheWrite_miss E C p N cur tl _ idx ?_]
      · exact cacheWriteLayer_hit E C il p N (cur il) mem idx hhit
      · intro il2 hil2
        exact hmiss il2 (List.mem_cons_of_mem il hil2)
          (fun he => hnotin (he ▸ hil2))
    · refine ih _ idx il (List.nodup_cons.1 hnd).2 htl hhit ?_
      intro il2 hil2 hne
      exact hmiss il2 (List.mem_cons_of_mem a hil2) hne

theorem inWriteRange_same_layer (E C il p N q r : Nat)
    (hN : 1 ≤ N) (hq1 : p ≤ q) (hq2 : q < p + N) (hr : r < E) :
    inWriteRange E C il p N (cacheIdx E C il q r) := by
  have hbase : E * (il * C + p) = il * (C * E) + p * E := by ring
  refine ⟨hN, ?_, ?_⟩
  · rw [hbase]
    unfold cacheIdx
    have h1 : p * E ≤ q * E + r := nat_mul_le_mul_add hq1
    omega
  · rw [hbase]
    unfold cacheIdx
    have h1 : q * E + r < (p + N) * E := nat_mul_add_lt hq2 hr
    have h2 : (p + N) * E = p * E + N * E := by ring
    omega

theorem not_inWriteRange_same_layer (E C il p N q r : Nat) (hr : r < E)
    (hq : q < p ∨ p + N ≤ q) :
    ¬ inWriteRange E C il p N (cacheIdx E C il q r) := by
  have hbase : E * (il * C + p) = il * (C * E) + p * E := by ring
  rintro ⟨hN, h1, h2⟩
  rw [hbase] at h1 h2
  unfold cacheIdx at h1 h2
  rcases hq with hlt | hge
  · have h3 : q * E + r < p * E := nat_mul_add_lt hlt hr
    omega
  · have h3 : (p + N) * E ≤ q * E := Nat.mul_le_mul_right E hge
    have h4 : (p + N) * E = p * E + N * E := by ring
    omega

theorem not_inWriteRange_other_layer (E C il il2 p N q r : Nat)
    (hne : il2 ≠ il) (hqC : q < C) (hr : r < E) (hpn : p + N ≤ C) :
    ¬ inWriteRange E C il2 p N (cacheIdx E C il q r) := by
  have hbase : E * (il2 * C + p) = il2 * (C * E) + p * E := by ring
  rintro ⟨hN, h1, h2⟩
  rw [hbase] at h1 h2
  unfold cacheIdx at h1 h2
  have hin : q * E + r < C * E := nat_mul_add_lt hqC hr
  have hcap : (p + N) * E ≤ C * E := Nat.mul_le_mul_right E hpn
  have hsplit : (p + N) * E = p * E + N * E := by ring
  rcases Nat.lt_or_ge il il2 with hlt | hge
  · have hmul : il * (C * E) + C * E ≤ il2 * (C * E) := by
      calc il * (C * E) + C * E = (il + 1) * (C * E) := by ring
        _ ≤ il2 * (C * E) := Nat.mul_le_mul_right (C * E) hlt
    omega
  · have hlt2 : il2 < il := by omega
    have hmul : il2 * (C * E) + C * E ≤ il * (C * E) := by
      calc il2 * (C * E) + C * E = (il2 + 1) * (C * E) := by ring
        _ ≤ il * (C * E) := Nat.mul_le_mul_right (C * E) hlt2
    omega

theorem kvCacheWrite_hit (E C L p N : Nat) (cur : Nat → Nat → ℚ)
    (mem : Nat → ℚ) (il q r : Nat) (hil : il < L) (hq1 : p ≤ q)
    (hq2 : q < p + N) (hr : r < E) (hpn : p + N ≤ C) :
    kvCacheWrite E C L p cur mem N (cacheIdx E C il q r) =
      cur il ((q - p) * E + r) := by
  unfold kvCacheWrite
  have hN : 1 ≤ N := by omega
  have hqC : q < C := by omega
  rw [foldl_cacheWrite_hit E C p N cur (List.range L) mem _ il
    (List.nodup_range L) (List.mem_range.2 hil)
    (inWriteRange_same_layer E C il p N q r hN hq1 hq2 hr)
    (fun il2 _ hne =>
      not_inWriteRange_other_layer E C il il2 p N q r hne hqC hr hpn)]
  congr 1
  have hbase : E * (il * C + p) = il * (C * E) + p * E := by ring
  unfold cacheIdx
  rw [hbase]
  have h1 : (q - p) * E + p * E = q * E := by
    rw [← Nat.add_mul]
    congr 1
    omega
  omega

theorem kvCacheWrite_frame (E C L p N : Nat) (cur : Nat → Nat → ℚ)
    (mem : Nat → ℚ) (il q r : Nat) (hq : q < p ∨ p + N ≤ q)
    (hqC : q < C) (hr : r < E) (hpn : p + N ≤ C) :
    kvCacheWrite E C L p cur mem N (cacheIdx E C il q r) =
      mem (cacheIdx E C il q r) := by
  unfold kvCacheWrite
  refine foldl_cacheWrite_miss E C p N cur (List.range L) mem _ ?_
  intro il2 _
  by_cases he : il2 = il
  · subst he
    exact not_inWriteRange_same_layer E C il2 p N q r hr hq
  · exact not_inWriteRange_other_layer E C il il2 p N q r he hqC hr hpn

/-! ## C2 -/

/-- **C2.** The cache effect of `bloom_eval` (the per-layer writes of
lines 649-656, for the key as well as the value cache since `cur` and
`mem` are arbitrary): a call of length `n1` at position `p` writes
exactly the slice `[p, p+n1)` of every layer's cache region — below-`p`
and above-the-slice positions keep their prior values — and a second
call of length `n2` at `p+n1` leaves `[p, p+n1+n2)` populated with the
two calls' values while every position below `p` is unchanged. -/
theorem C2_cache_write_frame (E C L p n1 n2 : Nat)
    (cur1 cur2 : Nat → Nat → ℚ) (mem : Nat → ℚ) (hn1 : 1 ≤ n1)
    (hn2 : 1 ≤ n2) (hfit : p + n1 + n2 ≤ C) :
    (∀ il q r, il < L → p ≤ q → q < p + n1 → r < E →
      kvCacheWrite E C L p cur1 mem n1 (cacheIdx E C il q r) =
        cur1 il ((q - p) * E + r)) ∧
    (∀ il q r, q < p → r < E →
      kvCacheWrite E C L p cur1 mem n1 (cacheIdx E C il q r) =
        mem (cacheIdx E C il q r)) ∧
    (∀ il q r, p + n1 ≤ q → q < C → r < E →
      kvCacheWrite E C L p cur1 mem n1 (cacheIdx E C il q r) =
        mem (cacheIdx E C il q r)) ∧
    (∀ il q r, il < L → p ≤ q → q < p + n1 → r < E →
      kvCacheWrite E C L (p + n1) cur2 (kvCacheWrite E C L p cur1 mem n1)
        n2 (cacheIdx E C il q r) = cur1 il ((q - p) * E + r)) ∧
    (∀ il q r, il < L → p + n1 ≤ q → q < p + n1 + n2 → r < E →
      kvCacheWrite E C L (p + n1) cur2 (kvCacheWrite E C L p cur1 mem n1)
        n2 (cacheIdx E C il q r) = cur2 il ((q - (p + n1)) * E + r)) ∧
    (∀ il q r, q < p → r < E →
      kvCacheWrite E C L (p + n1) cur2 (kvCacheWrite E C L p cur1 mem n1)
        n2 (cacheIdx E C il q r) = mem (cacheIdx E C il q r)) := by
  refine ⟨?_, ?_, ?_, ?_, ?_, ?_⟩
  · intro il q r hil h1 h2 hr
    exact kvCacheWrite_hit E C L p n1 cur1 mem il q r hil h1 h2 hr
      (by omega)
  · intro il q r h1 hr
    exact kvCacheWrite_frame E C L p n1 cur1 mem il q r (Or.inl h1)
      (by omega) hr (by omega)
  · intro il q r h1 h2 hr
    exact kvCacheWrite_frame E C L p n1 cur1 mem il q r (Or.inr h1) h2 hr
      (by omega)
  · intro il q r hil h1 h2 hr
    rw [kvCacheWrite_frame E C L (p + n1) n2 cur2 _ il q r (Or.inl h2)
      (by omega) hr (by omega)]
    exact kvCacheWrite_hit E C L p n1 cur1 mem il q r hil h1 h2 hr
      (by omega)
  · intro il q r hil h1 h2 hr
    exact kvCacheWrite_hit E C L (p + n1) n2 cur2 _ il q r hil h1
      (by omega) hr (by omega)
  · intro il q r h1 hr
    rw [kvCacheWrite_frame E C L (p + n1) n2 cur2 _ il q r
      (Or.inl (by omega)) (by omega) hr (by omega)]
    exact kvCacheWrite_frame E C L p n1 cur1 mem il q r (Or.inl h1)
      (by omega) hr (by omega)

/-- **C2 witness.** Concrete session: one element per position, 3
positions, 2 layers; after writes of length 1 at positions 1 then 2,
layer 1 holds the first call's value at position 1, the second call's
value at position 2, and the untouched prior value at position 0. -/
theorem C2_cache_write_frame_witness :
    kvCacheWrite 1 3 2 2 (fun _ _ => 7)
      (kvCacheWrite 1 3 2 1 (fun _ _ => 5) (fun _ => 9) 1) 1
      (cacheIdx 1 3 1 1 0) = 5 ∧
    kvCacheWrite 1 3 2 2 (fun _ _ => 7)
      (kvCacheWrite 1 3 2 1 (fun _ _ => 5) (fun _ => 9) 1) 1
      (cacheIdx 1 3 1 2 0) = 7 ∧
    kvCacheWrite 1 3 2 2 (fun _ _ => 7)
      (kvCacheWrite 1 3 2 1 (fun _ _ => 5) (fun _ => 9) 1) 1
      (cacheIdx 1 3 1 0 0) = 9 := by
  have h := C2_cache_write_frame 1 3 2 1 1 1 (fun _ _ => 5) (fun _ _ => 7)
    (fun _ => 9) (by decide) (by decide) (by decide)
  exact ⟨h.2.2.2.1 1 1 0 (by decide) (by decide) (by decide) (by decide),
    h.2.2.2.2.1 1 2 0 (by decide) (by decide) (by decide) (by decide),
    h.2.2.2.2.2 1 0 0 (by decide) (by decide)⟩

/-! ## C10 -/

/-- **C10.** A successful `bloom_load` performs exactly one warm-up
`bloom_eval` with token ids 0,1,2,3 at cache position 0 — recording the
per-token memory estimate `usedMem/4` and writing cache positions 0-3
of every layer of both caches — and returns a context whose cache-fill
position `n_past` is 0, whose character count is 0, and whose
recent-token history is `repeat_last_n` zeros. -/
theorem C10_load_session_init (rl E C L : Nat) (kcur vcur : Nat → Nat → ℚ)
    (mk0 mv0 : Nat → ℚ) (um : Nat) (hC : 4 ≤ C) :
    ∃ c, bloom_load true true rl E C L kcur vcur mk0 mv0 um = some c ∧
      c.npast = 0 ∧ c.n_chars = 0 ∧ c.mem_per_token = um / 4 ∧
      c.last_n_tokens = List.replicate rl 0 ∧
      c.evalCalls = [(0, [0, 1, 2, 3])] ∧
      (∀ il q r, il < L → q < 4 → r < E →
        c.memK (cacheIdx E C il q r) = kcur il (q * E + r)) ∧
      (∀ il q r, il < L → q < 4 → r < E →
        c.memV (cacheIdx E C il q r) = vcur il (q * E + r)) := by
  refine ⟨⟨um / 4, 0, 0, List.replicate rl 0,
    kvCacheWrite E C L 0 kcur mk0 4, kvCacheWrite E C L 0 vcur mv0 4,
    [(0, [0, 1, 2, 3])]⟩, by simp [bloom_load], rfl, rfl, rfl, rfl, rfl,
    ?_, ?_⟩
  · intro il q r hil hq hr
    have h := kvCacheWrite_hit E C L 0 4 kcur mk0 il q r hil (by omega)
      (by omega) hr (by omega)
    simpa using h
  · intro il q r hil hq hr
    have h := kvCacheWrite_hit E C L 0 4 vcur mv0 il q r hil (by omega)
      (by omega) hr (by omega)
    simpa using h

/-- **C10 witness.** A concrete successful load: context 4, one layer,
one element per position, `usedMem = 8`, window length 2. -/
theorem C10_load_session_init_witness :
    4 ≤ 4 ∧
      ∃ c, bloom_load true true 2 1 4 1 (fun _ _ => 5) (fun _ _ => 6)
          (fun _ => 9) (fun _ => 9) 8 = some c ∧
        c.npast = 0 ∧ c.n_chars = 0 ∧ c.mem_per_token = 8 / 4 ∧
        c.last_n_tokens = List.replicate 2 0 ∧
        c.evalCalls = [(0, [0, 1, 2, 3])] ∧
        (∀ il q r, il < 1 → q < 4 → r < 1 →
          c.memK (cacheIdx 1 4 il q r) = (fun _ _ => (5 : ℚ)) il
            (q * 1 + r)) ∧
        (∀ il q r, il < 1 → q < 4 → r < 1 →
          c.memV (cacheIdx 1 4 il q r) = (fun _ _ => (6 : ℚ)) il
            (q * 1 + r)) :=
  ⟨by decide, C10_load_session_init 2 1 4 1 (fun _ _ => 5) (fun _ _ => 6)
    (fun _ => 9) (fun _ => 9) 8 (by decide)⟩

/-! ## C5 -/

/-- **C5.** For every positive embedding width `n_embd` and positive
granularity `n_mult`, the loader's feed-forward inner width
`((4*n_embd + n_mult - 1)/n_mult)*n_mult` (integer division) is the
smallest multiple of `n_mult` that is at least `4*n_embd`. -/
theorem C5_n_ff_least_multiple (n_embd n_mult : Nat) (he : 0 < n_embd)
    (hm : 0 < n_mult) :
    n_mult ∣ n_ff n_embd n_mult ∧ 4 * n_embd ≤ n_ff n_embd n_mult ∧
      ∀ k, n_mult ∣ k → 4 * n_embd ≤ k → n_ff n_embd n_mult ≤ k := by
  refine ⟨?_, ?_, ?_⟩
  · unfold n_ff
    exact dvd_mul_left _ _
  · have h := Nat.div_add_mod (4 * n_embd + n_mult - 1) n_mult
    rw [Nat.mul_comm] at h
    have hr : (4 * n_embd + n_mult - 1) % n_mult < n_mult :=
      Nat.mod_lt _ hm
    unfold n_ff
    omega
  · intro k hk hle
    obtain ⟨j, rfl⟩ := hk
    unfold n_ff
    have hdiv : (4 * n_embd + n_mult - 1) / n_mult ≤ j := by
      rw [Nat.div_le_iff_le_mul_add_pred hm]
      omega
    calc (4 * n_embd + n_mult - 1) / n_mult * n_mult
        ≤ j * n_mult := Nat.mul_le_mul_right _ hdiv
      _ = n_mult * j := Nat.mul_comm _ _

/-- **C5 witness.** At `n_embd = 4`, `n_mult = 3` the derived width is
18, a multiple of 3 at least 16, and no smaller multiple works. -/
theorem C5_n_ff_least_multiple_witness :
    n_ff 4 3 = 18 ∧ 3 ∣ n_ff 4 3 ∧ 16 ≤ n_ff 4 3 ∧ ¬ (n_ff 4 3 ≤ 15) := by
  have h := C5_n_ff_least_multiple 4 3 (by decide) (by decide)
  exact ⟨by decide, h.1, h.2.1, by decide⟩

/-! ## C6 -/

/-- **C6.** A model file whose first four bytes do not decode to the
magic constant `0x67676d6c` makes `bloom_model_load` return failure
with no phase executed: hyperparameters are not read, the vocabulary
is not built, and no arena creation occurs. -/
theorem C6_bad_magic_early_failure (file : List Nat) (n_ctx : Nat)
    (arenaOk : Bool) (hbad : readU32 file 0 ≠ ggmlMagic) :
    bloom_model_load file n_ctx arenaOk =
      (none, ⟨false, false, false⟩) := by
  unfold bloom_model_load
  simp [hbad]

/-- **C6 witness.** The all-zero four-byte file fails the magic check
with the all-false trace, whatever the arena allocator would do. -/
theorem C6_bad_magic_early_failure_witness :
    bloom_model_load [0, 0, 0, 0] 512 true = (none, ⟨false, false, false⟩) ∧
      bloom_model_load [0, 0, 0, 0] 512 false =
        (none, ⟨false, false, false⟩) :=
  ⟨C6_bad_magic_early_failure [0, 0, 0, 0] 512 true (by decide),
    C6_bad_magic_early_failure [0, 0, 0, 0] 512 false (by decide)⟩

/-! ## C8 -/

/-- **C8.** For non-empty input of length `N`, the logits returned by
`bloom_eval` have exactly `n_vocab` elements and are the graph-output
row of the final input position `N - 1`; rows of earlier positions are
not part of the result. -/
theorem C8_last_row_logits (n_embd n_ctx n_layer n_vocab : Nat)
    (graphOut : Nat → ℚ) (kcur vcur : Nat → Nat → ℚ) (n_past : Nat)
    (embd_inp : List Nat) (memK memV : Nat → ℚ)
    (_hN : 1 ≤ embd_inp.length) :
    (bloom_eval n_embd n_ctx n_layer n_vocab graphOut kcur vcur n_past
        embd_inp memK memV).logits.length = n_vocab ∧
      (bloom_eval n_embd n_ctx n_layer n_vocab graphOut kcur vcur n_past
        embd_inp memK memV).logits =
        logitsRow n_vocab graphOut (embd_inp.length - 1) ∧
      ∀ j, j < n_vocab →
        (bloom_eval n_embd n_ctx n_layer n_vocab graphOut kcur vcur n_past
          embd_inp memK memV).logits.getD j 0 =
          graphOut (n_vocab * (embd_inp.length - 1) + j) := by
  refine ⟨by simp [bloom_eval], rfl, ?_⟩
  intro j hj
  simp [bloom_eval, List.getD, List.getElem?_map, List.getElem?_range, hj]

/-- **C8 witness.** With 3 input tokens and a 2-wide vocabulary the
returned logits are the two graph outputs at flat offsets 4 and 5
(row 2), of length `n_vocab = 2`. -/
theorem C8_last_row_logits_witness :
    (bloom_eval 1 8 1 2 (fun i => (i : ℚ)) (fun _ _ => 0) (fun _ _ => 0) 0
        [4, 5, 6] (fun _ => 0) (fun _ => 0)).logits.length = 2 ∧
      (bloom_eval 1 8 1 2 (fun i => (i : ℚ)) (fun _ _ => 0) (fun _ _ => 0) 0
        [4, 5, 6] (fun _ => 0) (fun _ => 0)).logits =
        logitsRow 2 (fun i => (i : ℚ)) 2 := by
  have h := C8_last_row_logits 1 8 1 2 (fun i => (i : ℚ)) (fun _ _ => 0)
    (fun _ _ => 0) 0 [4, 5, 6] (fun _ => 0) (fun _ => 0) (by decide)
  exact ⟨h.1, h.2.1⟩

/-! ## C4 -/

/-- **C4.** A `bloom_chat` invocation tokenizes only the suffix of the
conversation past the accumulated character count `n_chars` — the
evaluated input depends only on that suffix, never on the
already-submitted prefix — and prepends exactly the one carried-over
token `last_n_tokens.back()` when it is positive, and nothing
otherwise. -/
theorem C4_suffix_tokenization (tokenize : String → List Nat)
    (conv conv2 : String) (n_chars : Nat) (lastN : List Nat) :
    (conv.drop n_chars = conv2.drop n_chars →
      bloom_chat_input tokenize conv n_chars lastN =
        bloom_chat_input tokenize conv2 n_chars lastN) ∧
    (0 < lastN.getLastD 0 → 0 < (conv.drop n_chars).length →
      bloom_chat_input tokenize conv n_chars lastN =
        lastN.getLastD 0 :: tokenize (conv.drop n_chars)) ∧
    (lastN.getLastD 0 = 0 → 0 < (conv.drop n_chars).length →
      bloom_chat_input tokenize conv n_chars lastN =
        tokenize (conv.drop n_chars)) ∧
    (∀ {R : Type} (evalFn : Nat → List Nat → Option (List ℚ))
        (stoch : ℚ → Nat → List ℚ → List Nat → R → Nat × R)
        (wordLen : Nat → Nat) (n_past0 n_predict n_batch n_ctx : Nat)
        (rp top_p : ℚ) (top_k : Nat) (temp : ℚ) (g : R),
      (bloom_chat evalFn tokenize stoch wordLen conv n_past0 n_chars lastN
          n_predict n_batch n_ctx rp top_p top_k temp g).2.embd_inp =
        bloom_chat_input tokenize conv n_chars lastN) := by
  refine ⟨?_, ?_, ?_, ?_⟩
  · intro h
    simp only [bloom_chat_input, bloom_chat_prompt, h]
  · intro hpos hlen
    simp only [bloom_chat_input, bloom_chat_prompt, chat_embd_inp]
    rw [if_pos hlen, if_pos hpos]
  · intro hzero hlen
    simp only [bloom_chat_input, bloom_chat_prompt, chat_embd_inp]
    rw [if_pos hlen, hzero, if_neg (by omega)]
  · intro R evalFn stoch wordLen n_past0 n_predict n_batch n_ctx rp tp tk
      temp g
    simp only [bloom_chat, bloom_chat_input, bloom_chat_prompt, chat]
    split
    · rfl
    · split <;> rfl

/-- **C4 witness.** Conversation `"AB"` with one character already
accounted: only the suffix `"B"` is tokenized, and the carried-over
token 5 is prepended to the evaluated input. -/
theorem C4_suffix_tokenization_witness :
    bloom_chat_input (fun s => [s.length + 10]) "AB" 1 [5] = [5, 11] ∧
      bloom_chat_input (fun s => [s.length + 10]) "XB" 1 [5] = [5, 11] := by
  have h := C4_suffix_tokenization (fun s => [s.length + 10]) "AB" "XB" 1 [5]
  have h1 := h.2.1 (by decide) (by decide)
  have h2 := h.1 (by decide)
  refine ⟨?_, ?_⟩
  · rw [h1]; decide
  · rw [← h2, h1]; decide

theorem buildBatchGo_length (n_batch : Nat) : ∀ (l acc : List Nat),
    acc.length ≤ n_batch → (buildBatchGo n_batch l acc).length ≤
      n_batch + 1 := by
  intro l
  induction l with
  | nil =>
    intro acc h
    simp only [buildBatchGo]
    omega
  | cons t rest ih =>
    intro acc h
    simp only [buildBatchGo]
    split
    · rename_i hgt
      simp only [List.length_append, List.length_cons, List.length_nil]
      omega
    · refine ih (acc ++ [t]) ?_
      rename_i hng
      simp only [List.length_append, List.length_cons, List.length_nil]
      simp only [List.length_append, List.length_cons, List.length_nil,
        gt_iff_lt, not_lt] at hng
      omega

theorem buildBatch_length (embd_inp : List Nat) (n_batch k : Nat) :
    (buildBatch embd_inp n_batch k).length ≤ n_batch + 1 :=
  buildBatchGo_length n_batch (embd_inp.drop k) [] (by simp)

theorem infLoop_evals_bound {R : Type} (evalFn : Nat → List Nat → List ℚ)
    (embd_inp : List Nat) (n_predict n_batch : Nat)
    (samp : List ℚ → List Nat → R → Nat × R) :
    ∀ (fuel : Nat) (s : InfState R),
    (∀ e ∈ s.evals, e.2.length ≤ n_batch + 1) →
    s.embd.length ≤ n_batch + 1 →
    ∀ e ∈ (infLoop evalFn embd_inp n_predict n_batch samp fuel s).evals,
      e.2.length ≤ n_batch + 1 := by
  intro fuel
  induction fuel with
  | zero => intro s h1 _ e he; exact h1 e he
  | succ m ih =>
    intro s h1 h2 e he
    rw [infLoop] at he
    by_cases hst : s.stopped
    · rw [if_pos hst] at he
      exact h1 e he
    · rw [if_neg hst] at he
      by_cases hlt : s.i < embd_inp.length + n_predict
      · rw [if_pos hlt] at he
        have hbnd : ∀ e2 ∈ (if s.embd.length > 0 then
            s.evals ++ [(s.npast, s.embd)] else s.evals),
            e2.2.length ≤ n_batch + 1 := by
          intro e2 he2
          by_cases hne : s.embd.length > 0
          · rw [if_pos hne] at he2
            rcases List.mem_append.1 he2 with hmem | hmem
            · exact h1 e2 hmem
            · have he2e : e2 = (s.npast, s.embd) :=
                List.mem_singleton.1 hmem
              rw [he2e]
              exact h2
          · rw [if_neg hne] at he2
            exact h1 e2 he2
        by_cases hle : embd_inp.length ≤ s.i
        · rw [if_pos hle] at he
          refine ih _ hbnd ?_ e he
          simp only [List.length_cons, List.length_nil]
          omega
        · rw [if_neg hle] at he
          refine ih _ hbnd ?_ e he
          exact buildBatch_length embd_inp n_batch s.i
      · rw [if_neg hlt] at he
        exact h1 e he

theorem infLoop_proj_eq {R1 R2 : Type} (evalFn : Nat → List Nat → List ℚ)
    (embd_inp : List Nat) (n_predict n_batch : Nat)
    (samp1 : List ℚ → List Nat → R1 → Nat × R1)
    (samp2 : List ℚ → List Nat → R2 → Nat × R2)
    (f : List ℚ → List Nat → Nat)
    (hf1 : ∀ lg ln g, (samp1 lg ln g).1 = f lg ln)
    (hf2 : ∀ lg ln g, (samp2 lg ln g).1 = f lg ln) :
    ∀ (fuel : Nat) (s1 : InfState R1) (s2 : InfState R2),
    stripRng s1 = stripRng s2 →
    stripRng (infLoop evalFn embd_inp n_predict n_batch samp1 fuel s1) =
      stripRng (infLoop evalFn embd_inp n_predict n_batch samp2 fuel s2) := by
  intro fuel
  induction fuel with
  | zero => intro s1 s2 h; exact h
  | succ m ih =>
    intro s1 s2 h
    have hi : s1.i = s2.i := congrArg InfState.i h
    have hnp : s1.npast = s2.npast := congrArg InfState.npast h
    have hem : s1.embd = s2.embd := congrArg InfState.embd h
    have hln : s1.lastN = s2.lastN := congrArg InfState.lastN h
    have hlg : s1.logits = s2.logits := congrArg InfState.logits h
    have hot : s1.out = s2.out := congrArg InfState.out h
    have hev : s1.evals = s2.evals := congrArg InfState.evals h
    have hsp : s1.stopped = s2.stopped := congrArg InfState.stopped h
    rw [infLoop, infLoop]
    by_cases hst : s2.stopped
    · rw [if_pos hst, if_pos (hsp ▸ hst)]
      exact h
    · rw [if_neg hst, if_neg (fun hc => hst (hsp ▸ hc))]
      by_cases hlt : s2.i < embd_inp.length + n_predict
      · rw [if_pos hlt, if_pos (hi ▸ hlt)]
        by_cases hle : embd_inp.length ≤ s2.i
        · rw [if_pos hle, if_pos (hi ▸ hle)]
          refine ih _ _ ?_
          simp only [stripRng, hi, hnp, hem, hln, hlg, hot, hev, hf1, hf2]
        · rw [if_neg hle, if_neg (fun hc => hle (hi ▸ hc))]
          refine ih _ _ ?_
          simp only [stripRng, hi, hnp, hem, hln, hlg, hot, hev]
      · rw [if_neg hlt, if_neg (fun hc => hlt (hi ▸ hc))]
        exact h

/-! ## C1 counterexample -/

/-- **C1 counterexample.** The claim that the supplied seed fully
determines the generator is false for `bloom_run` as written: the
resolution at line 1091 tests the default-constructed `params.seed`,
so with a negative default (`-1` here) two calls with the identical
supplied seed 42 at clock values 0 and 1 seed the generator
differently. -/
theorem C1_seed_counterexample :
    ¬ (∀ (defaultSeed seedArg t1 t2 : Int),
        resolveSeed defaultSeed seedArg t1 =
          resolveSeed defaultSeed seedArg t2) := by
  intro h
  have := h (-1) 42 0 1
  simp [resolveSeed] at this

/-! ## C1 amended theorem -/

/-- **C1 (amended).** Greedy determinism: at `temperature = 0` the
sampler returns the arg-max id of the (penalty-adjusted) logits and
leaves the generator untouched, whatever its state; with
`repeatPenalty = 1` this is the arg-max of the raw logits, and it is
the strict arg-max index whenever one logit strictly dominates.
Consequently a whole greedy `inference` run emits tokens and issues
eval calls independently of the generator — two runs with identical
weights, prompt and budget coincide whatever their generators.  The
supplied seed reaches the generator only when the `gpt_params` default
seed is non-negative, because line 1091 tests the default-initialized
field rather than the argument. -/
theorem C1_greedy_determinism :
    (∀ (R : Type) (stoch : ℚ → Nat → List ℚ → List Nat → R → Nat × R)
        (top_p : ℚ) (top_k : Nat) (logits : List ℚ) (recent : List Nat)
        (rp : ℚ) (g : R),
      bloom_sample_top_p stoch top_p top_k logits recent rp 0 g =
        (argmaxIdx (applyRepeatPenalty logits recent rp), g)) ∧
    (∀ (R : Type) (stoch : ℚ → Nat → List ℚ → List Nat → R → Nat × R)
        (top_p : ℚ) (top_k : Nat) (logits : List ℚ) (recent : List Nat)
        (g : R),
      bloom_sample_top_p stoch top_p top_k logits recent 1 0 g =
        (argmaxIdx logits, g)) ∧
    (∀ (logits : List ℚ) (i : Nat), i < logits.length →
      (∀ j, j < logits.length → j ≠ i →
        logits.getD j 0 < logits.getD i 0) →
      argmaxIdx logits = i) ∧
    (∀ (R1 R2 : Type)
        (stoch1 : ℚ → Nat → List ℚ → List Nat → R1 → Nat × R1)
        (stoch2 : ℚ → Nat → List ℚ → List Nat → R2 → Nat × R2)
        (evalFn : Nat → List Nat → List ℚ) (embd_inp : List Nat)
        (n_predict n_batch repeat_last_n : Nat) (rp top_p : ℚ)
        (top_k : Nat) (g1 : R1) (g2 : R2),
      (inference evalFn stoch1 embd_inp n_predict n_batch repeat_last_n
          rp top_p top_k 0 g1).out =
        (inference evalFn stoch2 embd_inp n_predict n_batch repeat_last_n
          rp top_p top_k 0 g2).out ∧
      (inference evalFn stoch1 embd_inp n_predict n_batch repeat_last_n
          rp top_p top_k 0 g1).evals =
        (inference evalFn stoch2 embd_inp n_predict n_batch repeat_last_n
          rp top_p top_k 0 g2).evals) ∧
    (∀ (d sd t : Int), 0 ≤ d → resolveSeed d sd t = sd) := by
  have hsample : ∀ (R : Type)
      (stoch : ℚ → Nat → List ℚ → List Nat → R → Nat × R) (top_p : ℚ)
      (top_k : Nat) (logits : List ℚ) (recent : List Nat) (rp : ℚ)
      (g : R),
      bloom_sample_top_p stoch top_p top_k logits recent rp 0 g =
        (argmaxIdx (applyRepeatPenalty logits recent rp), g) := by
    intro R stoch tp tk lg rec rp g
    unfold bloom_sample_top_p
    rw [if_pos rfl]
  refine ⟨hsample, ?_, ?_, ?_, ?_⟩
  · intro R stoch tp tk lg rec g
    rw [hsample, applyRepeatPenalty_one]
  · exact fun lg i hi hs => argmaxIdx_eq_of_strict lg i hi hs
  · intro R1 R2 stoch1 stoch2 evalFn embd_inp np nb rl rp tp tk g1 g2
    unfold inference
    have hstrip := infLoop_proj_eq evalFn embd_inp np nb
      (fun lg ln g => bloom_sample_top_p stoch1 tp tk lg ln rp 0 g)
      (fun lg ln g => bloom_sample_top_p stoch2 tp tk lg ln rp 0 g)
      (fun lg ln => argmaxIdx (applyRepeatPenalty lg ln rp))
      (fun lg ln g => by simp [hsample])
      (fun lg ln g => by simp [hsample])
      (embd_inp.length + np)
      ⟨0, 0, [], List.replicate rl 0, [], g1, [], [], false⟩
      ⟨0, 0, [], List.replicate rl 0, [], g2, [], [], false⟩
      rfl
    exact ⟨congrArg InfState.out hstrip, congrArg InfState.evals hstrip⟩
  · intro d sd t hd
    unfold resolveSeed
    rw [if_neg (not_lt.2 hd)]

/-- **C1 witness.** Concrete greedy draws: temperature 0 returns the
arg-max index 1 of `[0, 5, 3]` for an arbitrary generator state, and a
non-negative default seed (7) passes the supplied seed 42 through. -/
theorem C1_greedy_determinism_witness :
    bloom_sample_top_p (fun _ _ _ _ g => (99, g)) 1 40 [0, 5, 3] [9] 1 0
      (3 : Nat) = (argmaxIdx [0, 5, 3], 3) ∧
    argmaxIdx [0, 5, 3] = 1 ∧
    resolveSeed 7 42 999 = 42 := by
  have h := C1_greedy_determinism
  exact ⟨h.2.1 Nat (fun _ _ _ _ g => (99, g)) 1 40 [0, 5, 3] [9] 3,
    h.2.2.1 [0, 5, 3] 1 (by decide) (by decide),
    h.2.2.2.2 7 42 999 (by decide)⟩

/-! ## C7 amended theorem -/

/-- **C7 (amended).** Every batch submitted to `bloom_eval` during an
`inference` run — prompt batches as well as single decode tokens —
contains at most `n_batch + 1` tokens: the prompt loop's break test
runs only after the push that first exceeds `n_batch`, so batches can
exceed the configured size by exactly one but never more. -/
theorem C7_batch_size_bound {R : Type} (evalFn : Nat → List Nat → List ℚ)
    (stoch : ℚ → Nat → List ℚ → List Nat → R → Nat × R)
    (embd_inp : List Nat) (n_predict n_batch repeat_last_n : Nat)
    (rp top_p : ℚ) (top_k : Nat) (temp : ℚ) (g : R) :
    ∀ e ∈ (inference evalFn stoch embd_inp n_predict n_batch
      repeat_last_n rp top_p top_k temp g).evals,
      e.2.length ≤ n_batch + 1 := by
  unfold inference
  refine infLoop_evals_bound evalFn embd_inp n_predict n_batch _
    (embd_inp.length + n_predict) _ ?_ ?_
  · intro e he
    simp at he
  · simp

/-- **C7 amended witness.** The oversized batch `[5, 6]` of the
counterexample run still satisfies the corrected bound
`n_batch + 1 = 2`. -/
theorem C7_batch_size_bound_witness :
    (0, [5, 6]) ∈ (inference (fun _ _ => [0, 1, 0])
      (fun _ _ _ _ g => (0, g)) [5, 6] 1 1 2 1 1 40 0 ()).evals ∧
    ((0, [5, 6]) : Nat × List Nat).2.length ≤ 1 + 1 := by
  have hmem : (0, [5, 6]) ∈ (inference (fun _ _ => [0, 1, 0])
      (fun _ _ _ _ g => (0, g)) [5, 6] 1 1 2 1 1 40 0 ()).evals := by
    have hrun : (inference (fun _ _ => [0, 1, 0])
        (fun _ _ _ _ g => (0, g)) [5, 6] 1 1 2 1 1 40 0 ()).evals =
        [(0, [5, 6])] := by
      simp [inference, infLoop, buildBatch, buildBatchGo,
        bloom_sample_top_p, applyRepeatPenalty_one, argmaxIdx, argmaxUpTo,
        rotatePush]
    rw [hrun]
    exact List.mem_singleton.2 rfl
  exact ⟨hmem, C7_batch_size_bound (fun _ _ => [0, 1, 0])
    (fun _ _ _ _ g => (0, g)) [5, 6] 1 1 2 1 1 40 0 () (0, [5, 6]) hmem⟩

/-! ## C7 counterexample -/

/-- **C7 counterexample.** With `n_batch = 1` and the 2-token prompt
`[5, 6]`, one-shot prompt ingestion submits the batch `[5, 6]` of 2
tokens to a single `bloom_eval` call: the loop of lines 915-922 breaks
only after the push that exceeds `n_batch`, so a batch can hold
`n_batch + 1` tokens, contradicting the at-most-`n_batch` claim. -/
theorem C7_batch_overflow_counterexample :
    (inference (fun _ _ => [0, 1, 0]) (fun _ _ _ _ g => (0, g)) [5, 6]
        1 1 2 1 1 40 0 ()).evals = [(0, [5, 6])] ∧
      ∃ e ∈ (inference (fun _ _ => [0, 1, 0]) (fun _ _ _ _ g => (0, g))
        [5, 6] 1 1 2 1 1 40 0 ()).evals, 1 < e.2.length := by
  have hrun : (inference (fun _ _ => [0, 1, 0]) (fun _ _ _ _ g => (0, g))
      [5, 6] 1 1 2 1 1 40 0 ()).evals = [(0, [5, 6])] := by
    simp [inference, infLoop, buildBatch, buildBatchGo, bloom_sample_top_p,
      applyRepeatPenalty_one, argmaxIdx, argmaxUpTo, rotatePush]
  exact ⟨hrun, ⟨(0, [5, 6]), by rw [hrun]; exact ⟨List.mem_singleton.2 rfl,
    by decide⟩⟩⟩

/-! ## C3 -/

/-- **C3.** Evaluated at a failing input: when the prompt-ingestion
`bloom_eval` of a `continueChat` call fails, `chat` returns 1 and
`bloom_chat` — which maps every non-negative return to 0 — reports the
API success code 0, the same value a successful call yields, so the
failure is not distinguishable from success, contradicting the claim. -/
theorem C3_chat_eval_failure_reported_as_success :
    (chat (fun _ _ => none) (fun _ => [1]) (fun _ _ _ _ g => (0, g))
        (fun _ => 1) "x" 0 0 [0] 1 1 8 1 1 40 0 ()).ret = 1 ∧
      (bloom_chat (fun _ _ => none) (fun _ => [1]) (fun _ _ _ _ g => (0, g))
        (fun _ => 1) "x" 0 0 [0] 1 1 8 1 1 40 0 ()).1 = 0 ∧
      0 ≤ (chat (fun _ _ => some [0, 5, 3]) (fun _ => [1])
        (fun _ _ _ _ g => (0, g)) (fun _ => 1) "x" 0 0 [0]
        1 1 8 1 1 40 0 ()).ret ∧
      (bloom_chat (fun _ _ => some [0, 5, 3]) (fun _ => [1])
        (fun _ _ _ _ g => (0, g)) (fun _ => 1) "x" 0 0 [0]
        1 1 8 1 1 40 0 ()).1 = 0 := by
  have hfail : (chat (fun _ _ => none) (fun _ => [1])
      (fun _ _ _ _ g => (0, g)) (fun _ => 1) "x" 0 0 [0]
      1 1 8 1 1 40 0 ()).ret = 1 := by
    simp [chat, chat_embd_inp, chatPromptLoop, show "x".length = 1 from rfl]
  have hok : (chat (fun _ _ => some [0, 5, 3]) (fun _ => [1])
      (fun _ _ _ _ g => (0, g)) (fun _ => 1) "x" 0 0 [0]
      1 1 8 1 1 40 0 ()).ret = 2 := by
    simp [chat, chat_embd_inp, chatPromptLoop, chatDecodeLoop,
      bloom_sample_top_p, applyRepeatPenalty_one, argmaxIdx, argmaxUpTo,
      rotatePush, show "x".length = 1 from rfl]
  refine ⟨hfail, ?_, ?_, ?_⟩
  · show (if (chat (fun _ _ => none) (fun _ => [1])
      (fun _ _ _ _ g => (0, g)) (fun _ => 1)
      (bloom_chat_prompt "x" 0) 0 0 [0] 1 1 8 1 1 40 0 ()).ret < 0
      then (-1 : Int) else 0) = 0
    rw [show bloom_chat_prompt "x" 0 = "x" from rfl, hfail]
    decide
  · rw [hok]; decide
  · show (if (chat (fun _ _ => some [0, 5, 3]) (fun _ => [1])
      (fun _ _ _ _ g => (0, g)) (fun _ => 1)
      (bloom_chat_prompt "x" 0) 0 0 [0] 1 1 8 1 1 40 0 ()).ret < 0
      then (-1 : Int) else 0) = 0
    rw [show bloom_chat_prompt "x" 0 = "x" from rfl, hok]
    decide

/-! ## C9 -/

/-- **C9.** Evaluated at a failing input: a fresh session
(`n_past = 0`), a conversation tokenizing to the 2-token input
`[7, 8]`, and `n_batch = 2` make the refill loop of lines 1008-1011
read `embd_inp[2]` and `embd_inp[3]` — `n_past` has already been
advanced past the batch — although `embd_inp` has length 2: the
indices are out of bounds, contradicting the claim. -/
theorem C9_refill_index_out_of_bounds :
    (chat (fun _ _ => some [1, 0]) (fun _ => [7, 8])
        (fun _ _ _ _ g => (0, g)) (fun _ => 1) "ab" 0 0 [0, 0]
        1 2 8 1 1 40 0 ()).idxs = [2, 3] ∧
      (chat (fun _ _ => some [1, 0]) (fun _ => [7, 8])
        (fun _ _ _ _ g => (0, g)) (fun _ => 1) "ab" 0 0 [0, 0]
        1 2 8 1 1 40 0 ()).embd_inp = [7, 8] ∧
      ∃ j ∈ (chat (fun _ _ => some [1, 0]) (fun _ => [7, 8])
        (fun _ _ _ _ g => (0, g)) (fun _ => 1) "ab" 0 0 [0, 0]
        1 2 8 1 1 40 0 ()).idxs,
        (chat (fun _ _ => some [1, 0]) (fun _ => [7, 8])
          (fun _ _ _ _ g => (0, g)) (fun _ => 1) "ab" 0 0 [0, 0]
          1 2 8 1 1 40 0 ()).embd_inp.length ≤ j := by
  have hidx : (chat (fun _ _ => some [1, 0]) (fun _ => [7, 8])
      (fun _ _ _ _ g => (0, g)) (fun _ => 1) "ab" 0 0 [0, 0]
      1 2 8 1 1 40 0 ()).idxs = [2, 3] := by
    simp [chat, chat_embd_inp, chatPromptLoop, chatDecodeLoop,
      bloom_sample_top_p, applyRepeatPenalty_one, argmaxIdx, argmaxUpTo,
      rotatePush, show "ab".length = 2 from rfl]
    decide
  have hinp : (chat (fun _ _ => some [1, 0]) (fun _ => [7, 8])
      (fun _ _ _ _ g => (0, g)) (fun _ => 1) "ab" 0 0 [0, 0]
      1 2 8 1 1 40 0 ()).embd_inp = [7, 8] := by
    simp [chat, chat_embd_inp, chatPromptLoop, chatDecodeLoop,
      bloom_sample_top_p, applyRepeatPenalty_one, argmaxIdx, argmaxUpTo,
      rotatePush, show "ab".length = 2 from rfl]
  refine ⟨hidx, hinp, ⟨2, ?_, ?_⟩⟩
  · rw [hidx]; decide
  · rw [hinp]; decide

end Bloom
